import Mathlib

/-!
Shallow embedding of the harbor registry toolkit core
(`pkg/registry`): the tag-protection policy engine
(`tag_protection.go`), the batch-operation executor
(`batch_operations.go`) and the health monitor with circuit breaker
(`health_monitor.go`).

Modelling conventions:
* A compiled regular expression (`*regexp.Regexp`) is modelled as an
  abstract matcher `String → Bool`; the nilable Go pointer becomes
  `Option (String → Bool)` (a `nil` pattern never matches here; in Go a
  `nil` pattern is rejected by `AddPolicy` before it can be scanned).
* `time.Duration` / `time.Time` values are modelled as integers
  (nanoseconds); `time.Now()` readings are explicit parameters.
* Goroutine nondeterminism in `executeBatch` is modelled by an explicit
  `order : List Nat` of slot writes (the completion order of the
  per-target tasks).
* Go maps (`operations`, `checks`) are association lists keyed by
  string, with insert-or-overwrite semantics.
* Wall-clock durations (`Elapsed`, `Latency` measurements) are carried
  as explicit parameters or left at 0 where no claim depends on them.
-/

namespace Harbor

/-! ### Tag protection (`tag_protection.go`) -/

/-- Model of `policy.Pattern.MatchString(s)`: a `nil` pattern never matches
(unreachable for policies stored via `AddPolicy`). -/
def matchString (p : Option (String → Bool)) (s : String) : Bool :=
  match p with
  | some f => f s
  | none => false

/-- Model of `ProtectionPolicy` from `tag_protection.go`. -/
structure ProtectionPolicy where
  name : String
  pattern : Option (String → Bool)
  immutable : Bool
  maxAge : Int
  allowDelete : Bool
  priority : Int

/-- Model of `fmt.Sprintf("%s:%s", repository, tag)`. -/
def tagRef (repository tag : String) : String := repository ++ ":" ++ tag

/-- The scan loop of `CanModify`: keeps the current best match,
replacing it only on strictly greater priority. -/
def findMatchedAux (ref : String) :
    Option ProtectionPolicy → List ProtectionPolicy → Option ProtectionPolicy
  | acc, [] => acc
  | acc, p :: rest =>
    if matchString p.pattern ref then
      match acc with
      | none => findMatchedAux ref (some p) rest
      | some m =>
        if p.priority > m.priority then findMatchedAux ref (some p) rest
        else findMatchedAux ref (some m) rest
    else findMatchedAux ref acc rest

/-- The matched-policy selection of `CanModify` (lines 63-71). -/
def findMatched (policies : List ProtectionPolicy) (ref : String) :
    Option ProtectionPolicy :=
  findMatchedAux ref none policies

/-- Model of `TagProtection.CanModify`.  The Go duration rendering
`%s` of `MaxAge` is abstracted to `toString` of the integer. -/
def CanModify (policies : List ProtectionPolicy) (repository tag : String)
    (age : Int) : Bool × String :=
  let ref := tagRef repository tag
  match findMatched policies ref with
  | none => (true, "")
  | some m =>
    if m.immutable then
      (false, "tag is immutable (policy: " ++ m.name ++ ")")
    else if 0 < m.maxAge ∧ age < m.maxAge then
      (false, "tag protected for " ++ toString m.maxAge ++ " (policy: " ++ m.name ++ ")")
    else (true, "")

/-- Model of `TagProtection.CanDelete`: first matching policy with
`AllowDelete == false` vetoes. -/
def CanDelete (policies : List ProtectionPolicy) (repository tag : String) :
    Bool × String :=
  let ref := tagRef repository tag
  match policies.find? (fun p => matchString p.pattern ref && !p.allowDelete) with
  | some p => (false, "tag deletion not allowed (policy: " ++ p.name ++ ")")
  | none => (true, "")

/-- Model of `TagProtection.AddPolicy`: returns the error (if any) and the new
policy collection (`tp.policies`). -/
def AddPolicy (policies : List ProtectionPolicy) (policy : ProtectionPolicy) :
    Option String × List ProtectionPolicy :=
  match policy.pattern with
  | none => (some "policy pattern cannot be nil", policies)
  | some _ => (none, policies ++ [policy])

/-- Specification-side characterisation of the policy that wins the
`CanModify` scan: a matching policy such that every matching policy
before it has strictly smaller priority and every matching policy after
it has priority at most its own. -/
def isWinner (policies : List ProtectionPolicy) (ref : String)
    (w : ProtectionPolicy) : Prop :=
  ∃ l₁ l₂, policies = l₁ ++ w :: l₂ ∧ matchString w.pattern ref = true ∧
    (∀ q ∈ l₁, matchString q.pattern ref = true → q.priority < w.priority) ∧
    (∀ q ∈ l₂, matchString q.pattern ref = true → q.priority ≤ w.priority)

/-! ### Batch operations (`batch_operations.go`) -/

/-- Model of `BatchOpType`. -/
inductive BatchOpType where
  | BatchOpDelete
  | BatchOpTag
  | BatchOpConvert
  | BatchOpCopy
deriving DecidableEq

/-- Model of `BatchOpStatus`. -/
inductive BatchOpStatus where
  | BatchOpPending
  | BatchOpRunning
  | BatchOpCompleted
  | BatchOpFailed
deriving DecidableEq

/-- Model of `BatchOpResult`. -/
structure BatchOpResult where
  target : String
  success : Bool
  error : String
  elapsed : Int
deriving DecidableEq

/-- Model of `BatchOperation` (timestamps in nanoseconds). -/
structure BatchOperation where
  id : String
  type : BatchOpType
  targets : List String
  status : BatchOpStatus
  results : List BatchOpResult
  createdAt : Nat
  startedAt : Nat
  endedAt : Nat
deriving DecidableEq

/-- Model of `BatchOperator`: the `operations` map as an association list. -/
structure BatchOperator where
  operations : List (String × BatchOperation)
  workers : Nat

/-- Model of `NewBatchOperator`. -/
def newBatchOperator (workers : Nat) : BatchOperator :=
  { operations := [], workers := workers }

/-- Go map assignment `m[k] = v`: overwrite an existing key, otherwise
append. -/
def setKey (m : List (String × BatchOperation)) (k : String)
    (v : BatchOperation) : List (String × BatchOperation) :=
  if m.any (fun kv => kv.1 == k) then
    m.map (fun kv => if kv.1 == k then (k, v) else kv)
  else m ++ [(k, v)]

/-- Decimal rendering of a natural number, modelling `fmt.Sprintf("%d", n)`
(`UnixNano` readings are taken non-negative). -/
def charOfDigit (d : Nat) : Char := Char.ofNat (48 + d)

/-- Fuel-based decimal digit accumulation, most significant first
(structural recursion so that it evaluates inside the kernel). -/
def decCharsCore : Nat → Nat → List Char → List Char
  | 0, _, acc => acc
  | fuel + 1, n, acc =>
    if n < 10 then charOfDigit n :: acc
    else decCharsCore fuel (n / 10) (charOfDigit (n % 10) :: acc)

/-- Decimal string of a natural number. -/
def natDecStr (n : Nat) : String :=
  String.mk (decCharsCore (n + 1) n [])

/-- Model of `generateID`, i.e. `fmt.Sprintf("batch-%d", time.Now().UnixNano())`, with
the `UnixNano` reading as an explicit parameter. -/
def generateID (nano : Nat) : String := "batch-" ++ natDecStr nano

/-- The per-target task body of `executeBatch`: success iff the handler
returned no error; the error message recorded only on failure.
Wall-clock elapsed time is not modelled (0). -/
def taskResult (handler : String → Option String) (tgt : String) : BatchOpResult :=
  match handler tgt with
  | none => { target := tgt, success := true, error := "", elapsed := 0 }
  | some msg => { target := tgt, success := false, error := msg, elapsed := 0 }

/-- Go zero value of `BatchOpResult` (`make([]BatchOpResult, n)`). -/
def zeroResult : BatchOpResult :=
  { target := "", success := false, error := "", elapsed := 0 }

/-- The fan-out of `executeBatch`: every index in `order` (the task
completion order) writes `taskResult` for its original target into its
own slot of the pre-allocated results slice. -/
def runTasks (targets : List String) (handler : String → Option String)
    (order : List Nat) : List BatchOpResult :=
  order.foldl
    (fun arr i => arr.set i (taskResult handler (targets.getD i "")))
    (List.replicate targets.length zeroResult)

/-- Model of `executeBatch` after the `wg.Wait()`: results filled slot-by-slot,
final status `failed` iff some result did not succeed, else `completed`. -/
def executeBatch (op : BatchOperation) (handler : String → Option String)
    (order : List Nat) (startTime endTime : Nat) : BatchOperation :=
  let results := runTasks op.targets handler order
  let st := if results.any (fun r => !r.success) then
      BatchOpStatus.BatchOpFailed
    else BatchOpStatus.BatchOpCompleted
  { op with
    status := st
    results := results
    startedAt := startTime
    endedAt := endTime }

/-- Model of `BatchOperator.DeleteTags`: creates the pending operation, stores it
under its generated id and returns it (execution is asynchronous). -/
def DeleteTags (bo : BatchOperator) (nano : Nat) (tags : List String) :
    BatchOperation × BatchOperator :=
  let op : BatchOperation :=
    { id := generateID nano
      type := BatchOpType.BatchOpDelete
      targets := tags
      status := BatchOpStatus.BatchOpPending
      results := []
      createdAt := nano
      startedAt := 0
      endedAt := 0 }
  (op, { bo with operations := setKey bo.operations op.id op })

/-- Model of `BatchOperator.GetOperation`. -/
def GetOperation (bo : BatchOperator) (id : String) : Option BatchOperation :=
  bo.operations.lookup id

/-- Model of `BatchOperator.ListOperations`. -/
def ListOperations (bo : BatchOperator) : List BatchOperation :=
  bo.operations.map (fun kv => kv.2)

/-! ### Health monitor (`health_monitor.go`) -/

/-- Model of `HealthStatus`. -/
inductive HealthStatus where
  | HealthStatusHealthy
  | HealthStatusDegraded
  | HealthStatusUnhealthy
  | HealthStatusUnknown
deriving DecidableEq

/-- Model of `CircuitState`. -/
inductive CircuitState where
  | CircuitClosed
  | CircuitHalfOpen
  | CircuitOpen
deriving DecidableEq

/-- Model of `HealthCheck` (times in nanoseconds). -/
structure HealthCheck where
  endpoint : String
  status : HealthStatus
  circuit : CircuitState
  latency : Int
  error : String
  lastCheck : Int
  consecutive : Nat
  attempts : Nat
deriving DecidableEq

/-- The record created by `Register`: Go zero values for the fields not
set explicitly. -/
def newHealthCheck (endpoint : String) : HealthCheck :=
  { endpoint := endpoint
    status := HealthStatus.HealthStatusUnknown
    circuit := CircuitState.CircuitClosed
    latency := 0
    error := ""
    lastCheck := 0
    consecutive := 0
    attempts := 0 }

/-- Model of `HealthMonitor.Register` on the `checks` map (association list). -/
def Register (checks : List (String × HealthCheck)) (endpoint : String) :
    List (String × HealthCheck) :=
  match checks.lookup endpoint with
  | some _ => checks
  | none => checks ++ [(endpoint, newHealthCheck endpoint)]

/-- Model of `HealthMonitor.updateHealth`: apply one probe outcome
(`probeErr = none` means success) to the record of an endpoint at time `now`. -/
def updateHealth (threshold : Nat) (check : HealthCheck) (now : Int)
    (probeErr : Option String) (latency : Int) : HealthCheck :=
  let c0 := { check with
    lastCheck := now
    latency := latency
    attempts := check.attempts + 1 }
  match probeErr with
  | some msg =>
    let c1 := { c0 with error := msg, consecutive := c0.consecutive + 1 }
    if threshold ≤ c1.consecutive then
      { c1 with
        status := HealthStatus.HealthStatusUnhealthy
        circuit := CircuitState.CircuitOpen }
    else if 0 < c1.consecutive then
      { c1 with status := HealthStatus.HealthStatusDegraded }
    else c1
  | none =>
    let c1 := { c0 with
      error := ""
      consecutive := 0
      status := HealthStatus.HealthStatusHealthy }
    if c1.circuit ≠ CircuitState.CircuitClosed then
      { c1 with circuit := CircuitState.CircuitClosed }
    else c1

/-- Model of `HealthMonitor.performCheck`: skip when the circuit is open and the
retry delay has not elapsed; otherwise (moving an open circuit to
half-open first) apply the probe outcome via `updateHealth`. -/
def performCheck (threshold : Nat) (retryDelay : Int) (check : HealthCheck)
    (now : Int) (probeErr : Option String) (latency : Int) : HealthCheck :=
  if check.circuit = CircuitState.CircuitOpen then
    if now - check.lastCheck < retryDelay then check
    else updateHealth threshold { check with circuit := CircuitState.CircuitHalfOpen }
      now probeErr latency
  else updateHealth threshold check now probeErr latency

/-- Reachability invariant of the circuit breaker: away from `closed`,
the consecutive-failure counter has already reached the threshold. -/
def circuitInv (threshold : Nat) (c : HealthCheck) : Prop :=
  c.circuit ≠ CircuitState.CircuitClosed → threshold ≤ c.consecutive

/-! ### Lemmas about the `CanModify` scan -/

theorem findMatchedAux_none (ref : String) (l : List ProtectionPolicy)
    (h : ∀ q ∈ l, matchString q.pattern ref = false) :
    findMatchedAux ref none l = none := by
  induction l with
  | nil => rfl
  | cons p rest ih =>
    have hp := h p (List.mem_cons_self p rest)
    simp only [findMatchedAux, hp, Bool.false_eq_true, if_false]
    exact ih fun q hq => h q (List.mem_cons_of_mem p hq)

theorem findMatchedAux_keep (ref : String) (w : ProtectionPolicy)
    (l : List ProtectionPolicy)
    (h : ∀ q ∈ l, matchString q.pattern ref = true → q.priority ≤ w.priority) :
    findMatchedAux ref (some w) l = some w := by
  induction l with
  | nil => rfl
  | cons p rest ih =>
    have hrest : ∀ q ∈ rest, matchString q.pattern ref = true → q.priority ≤ w.priority :=
      fun q hq => h q (List.mem_cons_of_mem p hq)
    by_cases hp : matchString p.pattern ref = true
    · have hle := h p (List.mem_cons_self p rest) hp
      simp only [findMatchedAux, hp, if_true, not_lt.mpr hle, if_false]
      exact ih hrest
    · simp only [findMatchedAux, hp, if_false]
      exact ih hrest

theorem findMatchedAux_cross (ref : String) (w : ProtectionPolicy)
    (l₂ : List ProtectionPolicy) (hw : matchString w.pattern ref = true)
    (h₂ : ∀ q ∈ l₂, matchString q.pattern ref = true → q.priority ≤ w.priority)
    (l₁ : List ProtectionPolicy) :
    ∀ m : ProtectionPolicy,
      (∀ q ∈ l₁, matchString q.pattern ref = true → q.priority < w.priority) →
      m.priority < w.priority →
      findMatchedAux ref (some m) (l₁ ++ w :: l₂) = some w := by
  induction l₁ with
  | nil =>
    intro m _ hm
    simp only [List.nil_append, findMatchedAux, hw, if_true, gt_iff_lt, hm, if_true]
    exact findMatchedAux_keep ref w l₂ h₂
  | cons p rest ih =>
    intro m h₁ hm
    have hrest : ∀ q ∈ rest, matchString q.pattern ref = true → q.priority < w.priority :=
      fun q hq => h₁ q (List.mem_cons_of_mem p hq)
    by_cases hp : matchString p.pattern ref = true
    · have hpw := h₁ p (List.mem_cons_self p rest) hp
      simp only [List.cons_append, findMatchedAux, hp, if_true]
      by_cases hpm : p.priority > m.priority
      · simp only [gt_iff_lt, hpm, if_true]
        exact ih p hrest hpw
      · simp only [gt_iff_lt, hpm, if_false]
        exact ih m hrest hm
    · simp only [List.cons_append, findMatchedAux, hp, if_false]
      exact ih m hrest hm

theorem findMatched_of_isWinner (policies : List ProtectionPolicy) (ref : String)
    (w : ProtectionPolicy) (hw : isWinner policies ref w) :
    findMatched policies ref = some w := by
  obtain ⟨l₁, l₂, hsplit, hmatch, h₁, h₂⟩ := hw
  subst hsplit
  unfold findMatched
  induction l₁ with
  | nil =>
    simp only [List.nil_append, findMatchedAux, hmatch, if_true]
    exact findMatchedAux_keep ref w l₂ h₂
  | cons p rest ih =>
    have hrest : ∀ q ∈ rest, matchString q.pattern ref = true → q.priority < w.priority :=
      fun q hq => h₁ q (List.mem_cons_of_mem p hq)
    by_cases hp : matchString p.pattern ref = true
    · have hpw := h₁ p (List.mem_cons_self p rest) hp
      simp only [List.cons_append, findMatchedAux, hp, if_true]
      exact findMatchedAux_cross ref w l₂ hmatch h₂ rest p hrest hpw
    · simp only [List.cons_append, findMatchedAux, hp, if_false]
      exact ih hrest

theorem canModify_matched_congr (l₁ l₂ : List ProtectionPolicy)
    (repository tag : String) (age : Int)
    (h : findMatched l₁ (tagRef repository tag) = findMatched l₂ (tagRef repository tag)) :
    CanModify l₁ repository tag age = CanModify l₂ repository tag age := by
  unfold CanModify
  dsimp only
  rw [h]

theorem find?_first_in_append {α : Type} (p : α → Bool) (l₁ : List α) (a : α)
    (l₂ : List α) (h₁ : ∀ x ∈ l₁, p x = false) (ha : p a = true) :
    List.find? p (l₁ ++ a :: l₂) = some a := by
  induction l₁ with
  | nil => simp [List.find?, ha]
  | cons x rest ih =>
    have hx := h₁ x (List.mem_cons_self x rest)
    simp only [List.cons_append, List.find?, hx]
    exact ih fun y hy => h₁ y (List.mem_cons_of_mem x hy)

end Harbor
namespace Harbor

/-- Claim C2: for every call of `CanModify`, if no policy pattern matches
the reference `repository:tag` the result is allowed with an empty
reason; otherwise, with `P` the winning (highest-priority, earliest on
ties) matching policy: if `P` is immutable the result is not-allowed
with a reason containing the name of `P`; else if `P.maxAge > 0` the result
is not-allowed iff `age < P.maxAge` (with a reason containing the name
of `P`), and allowed once `age ≥ P.maxAge`; else allowed. -/
theorem c2_canModify_decision (policies : List ProtectionPolicy)
    (repository tag : String) (age : Int) :
    ((∀ q ∈ policies, matchString q.pattern (tagRef repository tag) = false) →
      CanModify policies repository tag age = (true, "")) ∧
    (∀ P : ProtectionPolicy, isWinner policies (tagRef repository tag) P →
      (P.immutable = true →
        (CanModify policies repository tag age).1 = false ∧
        ∃ a b, (CanModify policies repository tag age).2 = a ++ P.name ++ b) ∧
      (P.immutable = false → 0 < P.maxAge →
        ((CanModify policies repository tag age).1 = false ↔ age < P.maxAge) ∧
        (age < P.maxAge →
          ∃ a b, (CanModify policies repository tag age).2 = a ++ P.name ++ b) ∧
        (P.maxAge ≤ age → CanModify policies repository tag age = (true, ""))) ∧
      (P.immutable = false → P.maxAge ≤ 0 →
        CanModify policies repository tag age = (true, ""))) := by
  constructor
  · intro h
    unfold CanModify
    dsimp only
    rw [show findMatched policies (tagRef repository tag) = none from
      findMatchedAux_none (tagRef repository tag) policies h]
  · intro P hP
    have hfind := findMatched_of_isWinner policies (tagRef repository tag) P hP
    have hCM : CanModify policies repository tag age =
        (if P.immutable then
          (false, "tag is immutable (policy: " ++ P.name ++ ")")
         else if 0 < P.maxAge ∧ age < P.maxAge then
          (false, "tag protected for " ++ toString P.maxAge ++ " (policy: " ++ P.name ++ ")")
         else (true, "")) := by
      unfold CanModify
      dsimp only
      rw [hfind]
    refine ⟨?_, ?_, ?_⟩
    · intro himm
      rw [hCM]
      simp only [himm, if_true]
      exact ⟨by simp, "tag is immutable (policy: ", ")", by simp⟩
    · intro himm hage0
      rw [hCM]
      simp only [himm, Bool.false_eq_true, if_false]
      by_cases hlt : age < P.maxAge
      · rw [if_pos ⟨hage0, hlt⟩]
        refine ⟨by simp [hlt], fun _ => ?_, fun hge => absurd hlt (not_lt.mpr hge)⟩
        refine ⟨"tag protected for " ++ toString P.maxAge ++ " (policy: ", ")", ?_⟩
        simp [String.append_assoc]
      · rw [if_neg (fun hc => hlt hc.2)]
        exact ⟨by simp [hlt], fun h => absurd h hlt, fun _ => rfl⟩
    · intro himm hage0
      rw [hCM]
      have hnot : ¬(0 < P.maxAge ∧ age < P.maxAge) := fun h => absurd h.1 (not_lt.mpr hage0)
      simp only [himm, Bool.false_eq_true, if_false, hnot]

/-- Witness for C2 at concrete inputs: an empty policy list allows, and
a single always-matching immutable policy named `prod` denies with a
reason containing `prod`. -/
theorem c2_canModify_decision_witness :
    CanModify ([] : List ProtectionPolicy) "library/nginx" "latest" 5 = (true, "") ∧
    ((CanModify [{ name := "prod", pattern := some (fun _ => true), immutable := true, maxAge := 0, allowDelete := false, priority := 10 }] "library/nginx" "v1" 5).1 = false ∧
      ∃ a b, (CanModify [{ name := "prod", pattern := some (fun _ => true), immutable := true, maxAge := 0, allowDelete := false, priority := 10 }] "library/nginx" "v1" 5).2 = a ++ "prod" ++ b) := by
  constructor
  · exact (c2_canModify_decision [] "library/nginx" "latest" 5).1 (by simp)
  · exact ((c2_canModify_decision [{ name := "prod", pattern := some (fun _ => true), immutable := true, maxAge := 0, allowDelete := false, priority := 10 }] "library/nginx" "v1" 5).2
      { name := "prod", pattern := some (fun _ => true), immutable := true, maxAge := 0, allowDelete := false, priority := 10 }
      ⟨[], [], rfl, rfl, by simp, by simp⟩).1 rfl

end Harbor
namespace Harbor

/-- Claim C3: for two policies both matching a reference with priorities
1 and 10, the decision of `CanModify` equals the decision of the priority-10
policy alone, in either insertion order; with equal priorities the
earliest-inserted matching policy decides. -/
theorem c3_priority_resolution (repository tag : String) (age : Int) :
    (∀ p1 p10 : ProtectionPolicy,
      matchString p1.pattern (tagRef repository tag) = true →
      matchString p10.pattern (tagRef repository tag) = true →
      p1.priority = 1 → p10.priority = 10 →
      CanModify [p1, p10] repository tag age = CanModify [p10] repository tag age ∧
      CanModify [p10, p1] repository tag age = CanModify [p10] repository tag age) ∧
    (∀ q1 q2 : ProtectionPolicy,
      matchString q1.pattern (tagRef repository tag) = true →
      matchString q2.pattern (tagRef repository tag) = true →
      q1.priority = q2.priority →
      CanModify [q1, q2] repository tag age = CanModify [q1] repository tag age) := by
  constructor
  · intro p1 p10 hm1 hm10 hpr1 hpr10
    have hsingle : findMatched [p10] (tagRef repository tag) = some p10 := by
      simp [findMatched, findMatchedAux, hm10]
    constructor
    · refine canModify_matched_congr _ _ _ _ _ ?_
      rw [hsingle]
      have hgt : p10.priority > p1.priority := by rw [hpr1, hpr10]; norm_num
      simp [findMatched, findMatchedAux, hm1, hm10, hgt]
    · refine canModify_matched_congr _ _ _ _ _ ?_
      rw [hsingle]
      have hgt : ¬ p1.priority > p10.priority := by rw [hpr1, hpr10]; norm_num
      simp [findMatched, findMatchedAux, hm1, hm10, hgt]
  · intro q1 q2 hm1 hm2 hpr
    refine canModify_matched_congr _ _ _ _ _ ?_
    have hgt : ¬ q2.priority > q1.priority := by rw [hpr]; exact lt_irrefl _
    simp [findMatched, findMatchedAux, hm1, hm2, hgt]

/-- Witness for C3 at concrete always-matching policies with priorities
1 and 10 (and two equal-priority policies). -/
theorem c3_priority_resolution_witness :
    (CanModify [{ name := "lo", pattern := some (fun _ => true), immutable := false, maxAge := 0, allowDelete := false, priority := 1 }, { name := "hi", pattern := some (fun _ => true), immutable := true, maxAge := 0, allowDelete := false, priority := 10 }] "r" "t" 0 = CanModify [{ name := "hi", pattern := some (fun _ => true), immutable := true, maxAge := 0, allowDelete := false, priority := 10 }] "r" "t" 0 ∧
     CanModify [{ name := "hi", pattern := some (fun _ => true), immutable := true, maxAge := 0, allowDelete := false, priority := 10 }, { name := "lo", pattern := some (fun _ => true), immutable := false, maxAge := 0, allowDelete := false, priority := 1 }] "r" "t" 0 = CanModify [{ name := "hi", pattern := some (fun _ => true), immutable := true, maxAge := 0, allowDelete := false, priority := 10 }] "r" "t" 0) ∧
    CanModify [{ name := "a", pattern := some (fun _ => true), immutable := true, maxAge := 0, allowDelete := false, priority := 5 }, { name := "b", pattern := some (fun _ => true), immutable := false, maxAge := 0, allowDelete := false, priority := 5 }] "r" "t" 0 = CanModify [{ name := "a", pattern := some (fun _ => true), immutable := true, maxAge := 0, allowDelete := false, priority := 5 }] "r" "t" 0 := by
  constructor
  · exact (c3_priority_resolution "r" "t" 0).1
      { name := "lo", pattern := some (fun _ => true), immutable := false, maxAge := 0, allowDelete := false, priority := 1 }
      { name := "hi", pattern := some (fun _ => true), immutable := true, maxAge := 0, allowDelete := false, priority := 10 }
      rfl rfl rfl rfl
  · exact (c3_priority_resolution "r" "t" 0).2
      { name := "a", pattern := some (fun _ => true), immutable := true, maxAge := 0, allowDelete := false, priority := 5 }
      { name := "b", pattern := some (fun _ => true), immutable := false, maxAge := 0, allowDelete := false, priority := 5 }
      rfl rfl rfl

/-- Claim C4: `CanDelete` scans in insertion order with no priority
resolution; it is not-allowed exactly when some policy matches
`repository:tag` with `allowDelete = false`, the first such policy
decides (its name appears in the reason), and otherwise the result is
allowed with an empty reason. -/
theorem c4_canDelete_decision (policies : List ProtectionPolicy)
    (repository tag : String) :
    ((CanDelete policies repository tag).1 = false ↔
      ∃ q ∈ policies, matchString q.pattern (tagRef repository tag) = true ∧
        q.allowDelete = false) ∧
    ((∀ q ∈ policies, ¬(matchString q.pattern (tagRef repository tag) = true ∧
        q.allowDelete = false)) →
      CanDelete policies repository tag = (true, "")) ∧
    (∀ l₁ (P : ProtectionPolicy) l₂, policies = l₁ ++ P :: l₂ →
      matchString P.pattern (tagRef repository tag) = true →
      P.allowDelete = false →
      (∀ q ∈ l₁, ¬(matchString q.pattern (tagRef repository tag) = true ∧
        q.allowDelete = false)) →
      CanDelete policies repository tag =
        (false, "tag deletion not allowed (policy: " ++ P.name ++ ")")) := by
  have hpred : ∀ q : ProtectionPolicy,
      (matchString q.pattern (tagRef repository tag) && !q.allowDelete) = true ↔
      (matchString q.pattern (tagRef repository tag) = true ∧ q.allowDelete = false) := by
    intro q
    cases h1 : matchString q.pattern (tagRef repository tag) <;>
      cases h2 : q.allowDelete <;> simp
  refine ⟨?_, ?_, ?_⟩
  · unfold CanDelete
    dsimp only
    cases hfind : policies.find?
        (fun p => matchString p.pattern (tagRef repository tag) && !p.allowDelete) with
    | none =>
      rw [List.find?_eq_none] at hfind
      simp only []
      constructor
      · intro h
        exact absurd h (by simp)
      · rintro ⟨q, hq, hm, ha⟩
        exact absurd ((hpred q).mpr ⟨hm, ha⟩) (hfind q hq)
    | some P =>
      have hmem : P ∈ policies := List.mem_of_find?_eq_some hfind
      have hPpb :=
        @List.find?_some _ (fun p => matchString p.pattern (tagRef repository tag) && !p.allowDelete) P policies hfind
      have hPp := (hpred P).mp hPpb
      simp only []
      exact ⟨fun _ => ⟨P, hmem, hPp⟩, fun _ => by simp⟩
  · intro h
    unfold CanDelete
    dsimp only
    rw [List.find?_eq_none.mpr (fun q hq hpq => h q hq ((hpred q).mp hpq))]
  · intro l₁ P l₂ hsplit hm ha h₁
    subst hsplit
    unfold CanDelete
    dsimp only
    rw [find?_first_in_append _ l₁ P l₂
      (fun x hx => by
        cases hpx : (matchString x.pattern (tagRef repository tag) && !x.allowDelete) with
        | false => rfl
        | true => exact absurd ((hpred x).mp hpx) (h₁ x hx))
      ((hpred P).mpr ⟨hm, ha⟩)]

/-- Witness for C4: one never-matching, one matching-but-deletable and
one matching non-deletable policy; the first non-deletable match `guard`
vetoes; with only deletable matches the delete is allowed. -/
theorem c4_canDelete_decision_witness :
    ((CanDelete [{ name := "guard", pattern := some (fun _ => true), immutable := false, maxAge := 0, allowDelete := false, priority := 0 }] "r" "t").1 = false ↔
      ∃ q ∈ [({ name := "guard", pattern := some (fun _ => true), immutable := false, maxAge := 0, allowDelete := false, priority := 0 } : ProtectionPolicy)],
        matchString q.pattern (tagRef "r" "t") = true ∧ q.allowDelete = false) ∧
    CanDelete [{ name := "ok", pattern := some (fun _ => true), immutable := false, maxAge := 0, allowDelete := true, priority := 0 }] "r" "t" = (true, "") ∧
    CanDelete [{ name := "miss", pattern := some (fun _ => false), immutable := false, maxAge := 0, allowDelete := false, priority := 0 }, { name := "guard", pattern := some (fun _ => true), immutable := false, maxAge := 0, allowDelete := false, priority := 0 }] "r" "t" =
      (false, "tag deletion not allowed (policy: guard)") := by
  refine ⟨(c4_canDelete_decision _ "r" "t").1, ?_, ?_⟩
  · exact (c4_canDelete_decision _ "r" "t").2.1 (by simp [matchString])
  · exact (c4_canDelete_decision _ "r" "t").2.2
      [{ name := "miss", pattern := some (fun _ => false), immutable := false, maxAge := 0, allowDelete := false, priority := 0 }]
      { name := "guard", pattern := some (fun _ => true), immutable := false, maxAge := 0, allowDelete := false, priority := 0 }
      [] rfl rfl rfl (by simp [matchString])

/-- Claim C10: `AddPolicy` rejects a policy with an absent (`nil`)
pattern, returning an error and leaving the collection unchanged;
with a present pattern it succeeds and appends exactly that policy at
the end of the collection. -/
theorem c10_addPolicy_atomic (policies : List ProtectionPolicy)
    (policy : ProtectionPolicy) :
    (policy.pattern = none →
      AddPolicy policies policy = (some "policy pattern cannot be nil", policies)) ∧
    (∀ f, policy.pattern = some f →
      AddPolicy policies policy = (none, policies ++ [policy])) := by
  constructor
  · intro h
    unfold AddPolicy
    rw [h]
  · intro f h
    unfold AddPolicy
    rw [h]

/-- Witness for C10: a nil-pattern policy is rejected leaving the
one-element collection unchanged; a valid policy is appended. -/
theorem c10_addPolicy_atomic_witness :
    AddPolicy [{ name := "keep", pattern := some (fun _ => true), immutable := false, maxAge := 0, allowDelete := false, priority := 0 }] { name := "bad", pattern := none, immutable := false, maxAge := 0, allowDelete := false, priority := 0 } =
      (some "policy pattern cannot be nil", [{ name := "keep", pattern := some (fun _ => true), immutable := false, maxAge := 0, allowDelete := false, priority := 0 }]) ∧
    AddPolicy [] { name := "good", pattern := some (fun _ => false), immutable := false, maxAge := 0, allowDelete := false, priority := 0 } =
      (none, [{ name := "good", pattern := some (fun _ => false), immutable := false, maxAge := 0, allowDelete := false, priority := 0 }]) := by
  constructor
  · exact (c10_addPolicy_atomic _ _).1 rfl
  · exact (c10_addPolicy_atomic _ _).2 (fun _ => false) rfl

end Harbor
namespace Harbor

/-! ### Lemmas about the batch fan-out -/

theorem foldl_set_length {β : Type} (f : Nat → β) :
    ∀ (order : List Nat) (arr : List β),
      (order.foldl (fun a j => a.set j (f j)) arr).length = arr.length := by
  intro order
  induction order with
  | nil => intro arr; rfl
  | cons j rest ih =>
    intro arr
    simpa [List.foldl_cons] using ih (arr.set j (f j))

theorem foldl_set_not_mem {β : Type} (f : Nat → β) (i : Nat) :
    ∀ (order : List Nat) (arr : List β), i ∉ order →
      (order.foldl (fun a j => a.set j (f j)) arr)[i]? = arr[i]? := by
  intro order
  induction order with
  | nil => intro arr _; rfl
  | cons j rest ih =>
    intro arr hi
    have hij : j ≠ i := fun h => hi (h ▸ List.mem_cons_self j rest)
    have hrest : i ∉ rest := fun h => hi (List.mem_cons_of_mem j h)
    rw [List.foldl_cons, ih _ hrest, List.getElem?_set_ne hij]

theorem foldl_set_mem {β : Type} (f : Nat → β) (i : Nat) :
    ∀ (order : List Nat) (arr : List β), i ∈ order → i < arr.length →
      (order.foldl (fun a j => a.set j (f j)) arr)[i]? = some (f i) := by
  intro order
  induction order with
  | nil => intro arr h _; exact absurd h (List.not_mem_nil i)
  | cons j rest ih =>
    intro arr hi hlen
    rw [List.foldl_cons]
    by_cases hr : i ∈ rest
    · exact ih _ hr (by simpa using hlen)
    · have hij : i = j := by
        rcases List.mem_cons.mp hi with h | h
        · exact h
        · exact absurd h hr
      subst hij
      rw [foldl_set_not_mem f i rest _ hr]
      exact List.getElem?_set_self hlen

theorem runTasks_length (targets : List String) (handler : String → Option String)
    (order : List Nat) : (runTasks targets handler order).length = targets.length := by
  unfold runTasks
  rw [foldl_set_length (fun j => taskResult handler (targets.getD j ""))]
  exact List.length_replicate targets.length zeroResult

theorem runTasks_getElem? (targets : List String) (handler : String → Option String)
    (order : List Nat) (i : Nat) (hi : i ∈ order) (hlen : i < targets.length) :
    (runTasks targets handler order)[i]? = some (taskResult handler (targets.getD i "")) := by
  unfold runTasks
  exact foldl_set_mem (fun j => taskResult handler (targets.getD j "")) i order
    (List.replicate targets.length zeroResult) hi (by simpa using hlen)

theorem taskResult_success (handler : String → Option String) (t : String) :
    (taskResult handler t).success = (handler t).isNone := by
  unfold taskResult
  cases handler t <;> rfl

theorem taskResult_target (handler : String → Option String) (t : String) :
    (taskResult handler t).target = t := by
  unfold taskResult
  cases handler t <;> rfl

/-- Claim C5: after execution the final status is `completed` iff every
success flag of every result is true, and `failed` iff at least one is false;
with exactly one failing target among `N`, the status is `failed` while
every other result still shows `success = true`. -/
theorem c5_batch_final_status (op : BatchOperation)
    (handler : String → Option String) (order : List Nat)
    (startTime endTime : Nat) :
    ((executeBatch op handler order startTime endTime).status =
        BatchOpStatus.BatchOpCompleted ↔
      ∀ r ∈ (executeBatch op handler order startTime endTime).results,
        r.success = true) ∧
    ((executeBatch op handler order startTime endTime).status =
        BatchOpStatus.BatchOpFailed ↔
      ∃ r ∈ (executeBatch op handler order startTime endTime).results,
        r.success = false) ∧
    (∀ i0, i0 < op.targets.length →
      (∀ i, i < op.targets.length → i ∈ order) →
      (handler (op.targets.getD i0 "")).isSome = true →
      (∀ j, j < op.targets.length → j ≠ i0 → handler (op.targets.getD j "") = none) →
      (executeBatch op handler order startTime endTime).status =
        BatchOpStatus.BatchOpFailed ∧
      ∀ j, j < op.targets.length → j ≠ i0 →
        ((executeBatch op handler order startTime endTime).results.getD j
          zeroResult).success = true) := by
  have hres : (executeBatch op handler order startTime endTime).results =
      runTasks op.targets handler order := rfl
  have hst : (executeBatch op handler order startTime endTime).status =
      (if (runTasks op.targets handler order).any (fun r => !r.success) then
        BatchOpStatus.BatchOpFailed else BatchOpStatus.BatchOpCompleted) := rfl
  refine ⟨?_, ?_, ?_⟩
  · rw [hres, hst]
    cases hany : (runTasks op.targets handler order).any (fun r => !r.success) with
    | false =>
      rw [List.any_eq_false] at hany
      simp only [Bool.false_eq_true, if_false]
      exact ⟨fun _ r hr => by simpa using hany r hr, fun _ => by trivial⟩
    | true =>
      rw [List.any_eq_true] at hany
      obtain ⟨r, hr, hrs⟩ := hany
      simp only [if_true]
      constructor
      · intro h
        exact absurd h (by simp)
      · intro h
        have := h r hr
        simp only [Bool.not_eq_true'] at hrs
        rw [this] at hrs
        cases hrs
  · rw [hres, hst]
    cases hany : (runTasks op.targets handler order).any (fun r => !r.success) with
    | false =>
      rw [List.any_eq_false] at hany
      simp only [Bool.false_eq_true, if_false]
      constructor
      · intro h
        exact absurd h (by simp)
      · rintro ⟨r, hr, hrs⟩
        have hcon := hany r hr
        simp only [Bool.not_eq_true'] at hcon
        exact absurd hrs hcon
    | true =>
      rw [List.any_eq_true] at hany
      obtain ⟨r, hr, hrs⟩ := hany
      simp only [if_true]
      refine ⟨fun _ => ⟨r, hr, ?_⟩, fun _ => by trivial⟩
      simpa using hrs
  · intro i0 hi0 hcover hfail hok
    have hslot0 : (runTasks op.targets handler order)[i0]? =
        some (taskResult handler (op.targets.getD i0 "")) :=
      runTasks_getElem? _ _ _ i0 (hcover i0 hi0) hi0
    have hmem0 : taskResult handler (op.targets.getD i0 "") ∈
        runTasks op.targets handler order := by
      have := List.getElem?_mem hslot0
      exact this
    constructor
    · rw [hst]
      have hany : (runTasks op.targets handler order).any (fun r => !r.success) = true := by
        rw [List.any_eq_true]
        refine ⟨_, hmem0, ?_⟩
        rw [taskResult_success]
        cases h : handler (op.targets.getD i0 "") with
        | none => rw [h] at hfail; cases hfail
        | some msg => rfl
      rw [hany]
      rfl
    · intro j hj hji
      have hslot : (runTasks op.targets handler order)[j]? =
          some (taskResult handler (op.targets.getD j "")) :=
        runTasks_getElem? _ _ _ j (hcover j hj) hj
      rw [hres, List.getD_eq_getElem?_getD, hslot]
      simp only [Option.getD_some]
      rw [taskResult_success, hok j hj hji]
      rfl

/-- Witness for C5: a two-target batch where exactly target 0 fails is
`failed` while the result for target 1 keeps `success = true`. -/
theorem c5_batch_final_status_witness :
    (executeBatch { id := "x", type := BatchOpType.BatchOpDelete, targets := ["a", "b"], status := BatchOpStatus.BatchOpPending, results := [], createdAt := 0, startedAt := 0, endedAt := 0 } (fun t => if t == "a" then some "boom" else none) [1, 0] 3 4).status = BatchOpStatus.BatchOpFailed ∧
    ∀ j, j < 2 → j ≠ 0 →
      ((executeBatch { id := "x", type := BatchOpType.BatchOpDelete, targets := ["a", "b"], status := BatchOpStatus.BatchOpPending, results := [], createdAt := 0, startedAt := 0, endedAt := 0 } (fun t => if t == "a" then some "boom" else none) [1, 0] 3 4).results.getD j zeroResult).success = true := by
  exact (c5_batch_final_status _ (fun t => if t == "a" then some "boom" else none) [1, 0] 3 4).2.2
    0 (by decide) (by decide)
    (by decide)
    (by
      intro j hj hji
      have hj2 : j < 2 := by simpa using hj
      have hj1 : j = 1 := by omega
      subst hj1
      decide)

/-- Claim C6: after execution the results sequence has the same length
as the targets sequence and `results[i].target = targets[i]` for every
index, regardless of the task completion order. -/
theorem c6_results_aligned (op : BatchOperation)
    (handler : String → Option String) (order : List Nat)
    (startTime endTime : Nat)
    (hcover : ∀ i, i < op.targets.length → i ∈ order) :
    (executeBatch op handler order startTime endTime).results.length =
      op.targets.length ∧
    ∀ i, i < op.targets.length →
      ((executeBatch op handler order startTime endTime).results.getD i
        zeroResult).target = op.targets.getD i "" := by
  have hres : (executeBatch op handler order startTime endTime).results =
      runTasks op.targets handler order := rfl
  constructor
  · rw [hres]
    exact runTasks_length _ _ _
  · intro i hi
    rw [hres, List.getD_eq_getElem?_getD,
      runTasks_getElem? _ _ _ i (hcover i hi) hi]
    simp only [Option.getD_some]
    exact taskResult_target _ _

/-- Witness for C6 on a concrete two-target batch executed in reversed
completion order. -/
theorem c6_results_aligned_witness :
    (executeBatch { id := "x", type := BatchOpType.BatchOpDelete, targets := ["a", "b"], status := BatchOpStatus.BatchOpPending, results := [], createdAt := 0, startedAt := 0, endedAt := 0 } (fun _ => none) [1, 0] 0 0).results.length = 2 ∧
    ∀ i, i < 2 →
      ((executeBatch { id := "x", type := BatchOpType.BatchOpDelete, targets := ["a", "b"], status := BatchOpStatus.BatchOpPending, results := [], createdAt := 0, startedAt := 0, endedAt := 0 } (fun _ => none) [1, 0] 0 0).results.getD i zeroResult).target = (["a", "b"].getD i "") := by
  exact c6_results_aligned _ (fun _ => none) [1, 0] 0 0
    (by
      intro i hi
      have hi2 : i < 2 := by simpa using hi
      have h2 : i = 0 ∨ i = 1 := by omega
      rcases h2 with h | h <;> subst h <;> decide)

end Harbor
namespace Harbor

/-! ### Lemmas about decimal id rendering -/

theorem charOfDigit_toNat {d : Nat} (h : d < 10) :
    (charOfDigit d).toNat = 48 + d := by
  interval_cases d <;> decide

theorem charOfDigit_inj {d1 d2 : Nat} (h1 : d1 < 10) (h2 : d2 < 10)
    (h : charOfDigit d1 = charOfDigit d2) : d1 = d2 := by
  have := congrArg Char.toNat h
  rw [charOfDigit_toNat h1, charOfDigit_toNat h2] at this
  omega

theorem map_charOfDigit_inj :
    ∀ (l1 l2 : List Nat), (∀ d ∈ l1, d < 10) → (∀ d ∈ l2, d < 10) →
      l1.map charOfDigit = l2.map charOfDigit → l1 = l2 := by
  intro l1
  induction l1 with
  | nil =>
    intro l2 _ _ h
    cases l2 with
    | nil => rfl
    | cons b t => simp at h
  | cons a t1 ih =>
    intro l2 h1 h2 h
    cases l2 with
    | nil => simp at h
    | cons b t2 =>
      simp only [List.map_cons, List.cons.injEq] at h
      have ha := h1 a (List.mem_cons_self a t1)
      have hb := h2 b (List.mem_cons_self b t2)
      have hd := charOfDigit_inj ha hb h.1
      have ht := ih t2 (fun d hd1 => h1 d (List.mem_cons_of_mem a hd1))
        (fun d hd2 => h2 d (List.mem_cons_of_mem b hd2)) h.2
      rw [hd, ht]

theorem decCharsCore_eq_digits :
    ∀ (fuel : Nat), ∀ (n : Nat) (acc : List Char), n < fuel → 0 < n →
      decCharsCore fuel n acc =
        ((Nat.digits 10 n).map charOfDigit).reverse ++ acc := by
  intro fuel
  induction fuel with
  | zero => intro n acc h _; omega
  | succ f ih =>
    intro n acc hlt hpos
    by_cases hsmall : n < 10
    · have hdig : Nat.digits 10 n = [n] := by
        rw [Nat.digits_def' (by norm_num : (1:Nat) < 10) hpos]
        rw [Nat.mod_eq_of_lt hsmall, Nat.div_eq_of_lt hsmall]
        simp
      simp only [decCharsCore, hsmall, if_true, hdig, List.map_cons, List.map_nil,
        List.reverse_cons, List.reverse_nil, List.nil_append, List.singleton_append]
    · have hge : 10 ≤ n := le_of_not_lt hsmall
      have hdivpos : 0 < n / 10 := Nat.div_pos hge (by norm_num)
      have hdivlt : n / 10 < f := by
        have h1 : n / 10 < n := Nat.div_lt_self hpos (by norm_num)
        omega
      simp only [decCharsCore, hsmall, if_false]
      rw [ih (n / 10) (charOfDigit (n % 10) :: acc) hdivlt hdivpos]
      rw [Nat.digits_def' (by norm_num : (1:Nat) < 10) hpos]
      simp [List.append_assoc]

theorem natDecStr_pos_eq {n : Nat} (hpos : 0 < n) :
    natDecStr n = String.mk (((Nat.digits 10 n).map charOfDigit).reverse) := by
  unfold natDecStr
  rw [decCharsCore_eq_digits (n + 1) n [] (Nat.lt_succ_self n) hpos]
  rw [List.append_nil]

theorem natDecStr_inj {m n : Nat} (h : natDecStr m = natDecStr n) : m = n := by
  have hmk : ∀ (a b : List Char), String.mk a = String.mk b → a = b := by
    intro a b hab
    injection hab
  have hzero : ∀ {k : Nat}, 0 < k →
      ((Nat.digits 10 k).map charOfDigit).reverse = ['0'] → False := by
    intro k hk hrev
    have hmap : (Nat.digits 10 k).map charOfDigit = ['0'] := by
      have := congrArg List.reverse hrev
      simpa using this
    have hbound : ∀ d ∈ Nat.digits 10 k, d < 10 :=
      fun d hd => Nat.digits_lt_base (by norm_num) hd
    have hdig : Nat.digits 10 k = [0] := by
      apply map_charOfDigit_inj _ _ hbound (by intro d hd; simp at hd; omega)
      rw [hmap]
      have : charOfDigit 0 = '0' := by decide
      simp [this]
    have : k = 0 := by
      have hof := Nat.ofDigits_digits 10 k
      rw [hdig] at hof
      simpa [Nat.ofDigits] using hof.symm
    omega
  rcases Nat.eq_zero_or_pos m with hm | hm <;> rcases Nat.eq_zero_or_pos n with hn | hn
  · rw [hm, hn]
  · subst hm
    rw [natDecStr_pos_eq hn] at h
    have h0 : natDecStr 0 = String.mk ['0'] := rfl
    rw [h0] at h
    exact absurd (hmk _ _ h.symm) (fun hc => hzero hn hc)
  · subst hn
    rw [natDecStr_pos_eq hm] at h
    have h0 : natDecStr 0 = String.mk ['0'] := rfl
    rw [h0] at h
    exact absurd (hmk _ _ h) (fun hc => hzero hm hc)
  · rw [natDecStr_pos_eq hm, natDecStr_pos_eq hn] at h
    have hrev := hmk _ _ h
    have hmap := List.reverse_injective hrev
    have hb1 : ∀ d ∈ Nat.digits 10 m, d < 10 :=
      fun d hd => Nat.digits_lt_base (by norm_num) hd
    have hb2 : ∀ d ∈ Nat.digits 10 n, d < 10 :=
      fun d hd => Nat.digits_lt_base (by norm_num) hd
    have hdig := map_charOfDigit_inj _ _ hb1 hb2 hmap
    exact Nat.digits.injective 10 hdig

theorem stringAppendLeftCancel (s t u : String) (h : s ++ t = s ++ u) : t = u := by
  apply String.ext
  have hd : s.data ++ t.data = s.data ++ u.data := by
    rw [← String.data_append, ← String.data_append, h]
  exact List.append_cancel_left hd

theorem generateID_inj {n1 n2 : Nat} (h : generateID n1 = generateID n2) :
    n1 = n2 :=
  natDecStr_inj (stringAppendLeftCancel "batch-" _ _ h)

end Harbor
namespace Harbor

/-- Counterexample to claim C8 as stated: `generateID` is derived from
the `UnixNano` clock reading alone, so two submissions that observe the
same reading (possible on a coarse clock) receive the SAME id; the
second overwrites the first in the operations map and `ListOperations`
returns one entry, not two. -/
theorem c8_same_nano_collision :
    (DeleteTags (newBatchOperator 5) 0 ["a"]).1.id =
      (DeleteTags (DeleteTags (newBatchOperator 5) 0 ["a"]).2 0 ["b"]).1.id ∧
    (ListOperations (DeleteTags (DeleteTags (newBatchOperator 5) 0 ["a"]).2 0 ["b"]).2).length = 1 := by
  exact ⟨rfl, by decide⟩

/-- Claim C8 amended: provided the two `UnixNano` readings of the two
submissions differ, the two generated ids are distinct, `ListOperations`
afterward returns exactly two entries, and each operation is retrievable
individually via `GetOperation` with its own id. -/
theorem c8_two_batches (w n1 n2 : Nat) (tags1 tags2 : List String)
    (h : n1 ≠ n2) :
    (DeleteTags (newBatchOperator w) n1 tags1).1.id ≠
      (DeleteTags (DeleteTags (newBatchOperator w) n1 tags1).2 n2 tags2).1.id ∧
    (ListOperations (DeleteTags (DeleteTags (newBatchOperator w) n1 tags1).2 n2 tags2).2).length = 2 ∧
    GetOperation (DeleteTags (DeleteTags (newBatchOperator w) n1 tags1).2 n2 tags2).2
        (DeleteTags (newBatchOperator w) n1 tags1).1.id =
      some (DeleteTags (newBatchOperator w) n1 tags1).1 ∧
    GetOperation (DeleteTags (DeleteTags (newBatchOperator w) n1 tags1).2 n2 tags2).2
        (DeleteTags (DeleteTags (newBatchOperator w) n1 tags1).2 n2 tags2).1.id =
      some (DeleteTags (DeleteTags (newBatchOperator w) n1 tags1).2 n2 tags2).1 := by
  have hne : generateID n1 ≠ generateID n2 := fun hc => h (generateID_inj hc)
  have hb12 : (generateID n1 == generateID n2) = false := beq_eq_false_iff_ne.mpr hne
  have hb21 : (generateID n2 == generateID n1) = false :=
    beq_eq_false_iff_ne.mpr (fun hc => hne hc.symm)
  refine ⟨hne, ?_, ?_, ?_⟩
  · simp [DeleteTags, newBatchOperator, setKey, ListOperations, hb12]
  · simp [DeleteTags, newBatchOperator, setKey, GetOperation, List.lookup, hb12, hb21]
  · simp [DeleteTags, newBatchOperator, setKey, GetOperation, List.lookup, hb12, hb21]

/-- Witness for the amended C8 with readings 0 and 1. -/
theorem c8_two_batches_witness :
    (DeleteTags (newBatchOperator 5) 0 ["a"]).1.id ≠
      (DeleteTags (DeleteTags (newBatchOperator 5) 0 ["a"]).2 1 ["b"]).1.id ∧
    (ListOperations (DeleteTags (DeleteTags (newBatchOperator 5) 0 ["a"]).2 1 ["b"]).2).length = 2 ∧
    GetOperation (DeleteTags (DeleteTags (newBatchOperator 5) 0 ["a"]).2 1 ["b"]).2
        (DeleteTags (newBatchOperator 5) 0 ["a"]).1.id =
      some (DeleteTags (newBatchOperator 5) 0 ["a"]).1 ∧
    GetOperation (DeleteTags (DeleteTags (newBatchOperator 5) 0 ["a"]).2 1 ["b"]).2
        (DeleteTags (DeleteTags (newBatchOperator 5) 0 ["a"]).2 1 ["b"]).1.id =
      some (DeleteTags (DeleteTags (newBatchOperator 5) 0 ["a"]).2 1 ["b"]).1 :=
  c8_two_batches 5 0 1 ["a"] ["b"] (by decide)

end Harbor
namespace Harbor

/-! ### Lemmas about the health monitor transitions -/

theorem updateHealth_fail (threshold : Nat) (check : HealthCheck) (now : Int)
    (msg : String) (latency : Int) (hth : threshold ≤ check.consecutive + 1) :
    (updateHealth threshold check now (some msg) latency).circuit =
      CircuitState.CircuitOpen ∧
    (updateHealth threshold check now (some msg) latency).status =
      HealthStatus.HealthStatusUnhealthy ∧
    (updateHealth threshold check now (some msg) latency).consecutive =
      check.consecutive + 1 := by
  unfold updateHealth
  dsimp only
  rw [if_pos hth]
  exact ⟨rfl, rfl, rfl⟩

theorem updateHealth_fail_low (threshold : Nat) (check : HealthCheck) (now : Int)
    (msg : String) (latency : Int) (hth : ¬ threshold ≤ check.consecutive + 1) :
    (updateHealth threshold check now (some msg) latency).circuit = check.circuit ∧
    (updateHealth threshold check now (some msg) latency).status =
      HealthStatus.HealthStatusDegraded ∧
    (updateHealth threshold check now (some msg) latency).consecutive =
      check.consecutive + 1 := by
  unfold updateHealth
  dsimp only
  rw [if_neg hth, if_pos (Nat.succ_pos check.consecutive)]
  exact ⟨rfl, rfl, rfl⟩

theorem updateHealth_ok (threshold : Nat) (check : HealthCheck) (now : Int)
    (latency : Int) :
    (updateHealth threshold check now none latency).circuit =
      CircuitState.CircuitClosed ∧
    (updateHealth threshold check now none latency).status =
      HealthStatus.HealthStatusHealthy ∧
    (updateHealth threshold check now none latency).consecutive = 0 := by
  unfold updateHealth
  dsimp only
  by_cases hc : check.circuit ≠ CircuitState.CircuitClosed
  · rw [if_pos hc]
    exact ⟨rfl, rfl, rfl⟩
  · rw [if_neg hc]
    push_neg at hc
    exact ⟨hc, rfl, rfl⟩

theorem performCheck_runs (threshold : Nat) (retryDelay : Int)
    (check : HealthCheck) (now : Int) (probeErr : Option String) (latency : Int)
    (h : ¬(check.circuit = CircuitState.CircuitOpen ∧ now - check.lastCheck < retryDelay)) :
    performCheck threshold retryDelay check now probeErr latency =
      updateHealth threshold
        (if check.circuit = CircuitState.CircuitOpen then
          { check with circuit := CircuitState.CircuitHalfOpen } else check)
        now probeErr latency := by
  unfold performCheck
  by_cases hc : check.circuit = CircuitState.CircuitOpen
  · have hnl : ¬(now - check.lastCheck < retryDelay) := fun hl => h ⟨hc, hl⟩
    rw [if_pos hc, if_neg hnl, if_pos hc]
  · rw [if_neg hc, if_neg hc]

theorem circuitInv_updateHealth (threshold : Nat) (r : HealthCheck) (now : Int)
    (probeErr : Option String) (latency : Int)
    (hr : r.circuit ≠ CircuitState.CircuitClosed → threshold ≤ r.consecutive) :
    circuitInv threshold (updateHealth threshold r now probeErr latency) := by
  cases probeErr with
  | none =>
    unfold circuitInv
    intro hne
    exact absurd (updateHealth_ok threshold r now latency).1 hne
  | some msg =>
    by_cases hth : threshold ≤ r.consecutive + 1
    · unfold circuitInv
      intro _
      rw [(updateHealth_fail threshold r now msg latency hth).2.2]
      exact hth
    · unfold circuitInv
      intro hne
      obtain ⟨hcirc, _, hcons⟩ := updateHealth_fail_low threshold r now msg latency hth
      rw [hcons]
      rw [hcirc] at hne
      have := hr hne
      omega

/-- Claim C1: when a probe actually runs (the check is not skipped by an
open circuit within the retry delay) and fails, reaching the threshold
of consecutive failures opens the circuit and makes the status
unhealthy; a subsequent successful probe that runs closes the circuit,
makes the status healthy and resets the consecutive counter to 0. -/
theorem c1_threshold_opens_success_closes (threshold : Nat) (retryDelay : Int)
    (check : HealthCheck) (now latency : Int) :
    (∀ msg : String,
      ¬(check.circuit = CircuitState.CircuitOpen ∧ now - check.lastCheck < retryDelay) →
      threshold ≤ check.consecutive + 1 →
      (performCheck threshold retryDelay check now (some msg) latency).circuit =
        CircuitState.CircuitOpen ∧
      (performCheck threshold retryDelay check now (some msg) latency).status =
        HealthStatus.HealthStatusUnhealthy) ∧
    (¬(check.circuit = CircuitState.CircuitOpen ∧ now - check.lastCheck < retryDelay) →
      (performCheck threshold retryDelay check now none latency).circuit =
        CircuitState.CircuitClosed ∧
      (performCheck threshold retryDelay check now none latency).status =
        HealthStatus.HealthStatusHealthy ∧
      (performCheck threshold retryDelay check now none latency).consecutive = 0) := by
  constructor
  · intro msg hrun hth
    rw [performCheck_runs threshold retryDelay check now (some msg) latency hrun]
    by_cases hc : check.circuit = CircuitState.CircuitOpen
    · rw [if_pos hc]
      have h := updateHealth_fail threshold
        { check with circuit := CircuitState.CircuitHalfOpen } now msg latency hth
      exact ⟨h.1, h.2.1⟩
    · rw [if_neg hc]
      have h := updateHealth_fail threshold check now msg latency hth
      exact ⟨h.1, h.2.1⟩
  · intro hrun
    rw [performCheck_runs threshold retryDelay check now none latency hrun]
    by_cases hc : check.circuit = CircuitState.CircuitOpen
    · rw [if_pos hc]
      exact updateHealth_ok threshold _ now latency
    · rw [if_neg hc]
      exact updateHealth_ok threshold check now latency

/-- Witness for C1: threshold 3, a record at 2 consecutive failures:
the third failure opens the circuit and marks it unhealthy; a success
probed after the delay on an open circuit recovers it. -/
theorem c1_threshold_opens_success_closes_witness :
    ((performCheck 3 10 { newHealthCheck "e" with consecutive := 2 } 0 (some "err") 1).circuit =
        CircuitState.CircuitOpen ∧
      (performCheck 3 10 { newHealthCheck "e" with consecutive := 2 } 0 (some "err") 1).status =
        HealthStatus.HealthStatusUnhealthy) ∧
    ((performCheck 3 10 { newHealthCheck "e" with consecutive := 3, circuit := CircuitState.CircuitOpen } 50 none 1).circuit =
        CircuitState.CircuitClosed ∧
      (performCheck 3 10 { newHealthCheck "e" with consecutive := 3, circuit := CircuitState.CircuitOpen } 50 none 1).status =
        HealthStatus.HealthStatusHealthy ∧
      (performCheck 3 10 { newHealthCheck "e" with consecutive := 3, circuit := CircuitState.CircuitOpen } 50 none 1).consecutive = 0) := by
  constructor
  · exact (c1_threshold_opens_success_closes 3 10
      { newHealthCheck "e" with consecutive := 2 } 0 1).1 "err" (by decide) (by decide)
  · exact (c1_threshold_opens_success_closes 3 10
      { newHealthCheck "e" with consecutive := 3, circuit := CircuitState.CircuitOpen } 50 1).2
      (by decide)

/-- Claim C7: the invariant "circuit away from closed implies the
counter already reached the threshold" holds for freshly registered
endpoints and is preserved by every check; under it, a probe attempted
after the retry delay while the circuit was open (the half-open probe)
reopens the circuit on its single failure, without a fresh run of
threshold-many failures. -/
theorem c7_half_open_single_failure_reopens (threshold : Nat) (retryDelay : Int) :
    (∀ e : String, circuitInv threshold (newHealthCheck e)) ∧
    (∀ (check : HealthCheck) (now : Int) (probeErr : Option String) (latency : Int),
      circuitInv threshold check →
      circuitInv threshold (performCheck threshold retryDelay check now probeErr latency)) ∧
    (∀ (check : HealthCheck) (now latency : Int) (msg : String),
      circuitInv threshold check →
      check.circuit = CircuitState.CircuitOpen →
      retryDelay ≤ now - check.lastCheck →
      (performCheck threshold retryDelay check now (some msg) latency).circuit =
        CircuitState.CircuitOpen) := by
  refine ⟨?_, ?_, ?_⟩
  · intro e
    unfold circuitInv
    intro hne
    exact absurd rfl hne
  · intro check now probeErr latency hinv
    by_cases hskip : check.circuit = CircuitState.CircuitOpen ∧ now - check.lastCheck < retryDelay
    · unfold performCheck
      rw [if_pos hskip.1, if_pos hskip.2]
      exact hinv
    · rw [performCheck_runs threshold retryDelay check now probeErr latency hskip]
      by_cases hc : check.circuit = CircuitState.CircuitOpen
      · rw [if_pos hc]
        apply circuitInv_updateHealth
        intro _
        have hnc : check.circuit ≠ CircuitState.CircuitClosed := by
          rw [hc]
          decide
        exact hinv hnc
      · rw [if_neg hc]
        apply circuitInv_updateHealth
        intro hne
        exact hinv hne
  · intro check now latency msg hinv hopen hdelay
    have hrun : ¬(check.circuit = CircuitState.CircuitOpen ∧ now - check.lastCheck < retryDelay) :=
      fun hsk => absurd hsk.2 (not_lt.mpr hdelay)
    rw [performCheck_runs threshold retryDelay check now (some msg) latency hrun]
    rw [if_pos hopen]
    have hge : threshold ≤ check.consecutive := by
      apply hinv
      rw [hopen]
      decide
    exact (updateHealth_fail threshold
      { check with circuit := CircuitState.CircuitHalfOpen } now msg latency
      (Nat.le_succ_of_le hge)).1

/-- Witness for C7: with threshold 2 a fresh record satisfies the
invariant; a preserved step; and a half-open probe failure at
consecutive = 2 reopens the circuit. -/
theorem c7_half_open_single_failure_reopens_witness :
    circuitInv 2 (newHealthCheck "e") ∧
    circuitInv 2 (performCheck 2 10 (newHealthCheck "e") 0 (some "err") 1) ∧
    (performCheck 2 10 { newHealthCheck "e" with consecutive := 2, circuit := CircuitState.CircuitOpen } 50 (some "err") 1).circuit =
      CircuitState.CircuitOpen := by
  refine ⟨(c7_half_open_single_failure_reopens 2 10).1 "e", ?_, ?_⟩
  · exact (c7_half_open_single_failure_reopens 2 10).2.1 (newHealthCheck "e") 0 (some "err") 1
      ((c7_half_open_single_failure_reopens 2 10).1 "e")
  · exact (c7_half_open_single_failure_reopens 2 10).2.2
      { newHealthCheck "e" with consecutive := 2, circuit := CircuitState.CircuitOpen } 50 1 "err"
      (by unfold circuitInv; intro _; exact le_refl 2) rfl (by decide)

theorem lookup_append_of_none {β : Type} (l1 l2 : List (String × β)) (k : String)
    (h : l1.lookup k = none) : (l1 ++ l2).lookup k = l2.lookup k := by
  induction l1 with
  | nil => rfl
  | cons a t ih =>
    cases hak : (k == a.1) with
    | true =>
      exfalso
      obtain ⟨a1, a2⟩ := a
      simp only [List.lookup, hak] at h
      exact Option.noConfusion h
    | false =>
      obtain ⟨a1, a2⟩ := a
      simp only [List.lookup, hak] at h
      simp only [List.cons_append, List.lookup, hak]
      exact ih h

/-- Claim C9: registering a new endpoint creates a record with status
`unknown` and circuit `closed`; registering an already-registered
endpoint is a no-op that leaves the map (hence the endpoint state)
unchanged, so `Register` is idempotent. -/
theorem c9_register_idempotent (checks : List (String × HealthCheck))
    (endpoint : String) :
    (checks.lookup endpoint = none →
      Register checks endpoint = checks ++ [(endpoint, newHealthCheck endpoint)] ∧
      (newHealthCheck endpoint).status = HealthStatus.HealthStatusUnknown ∧
      (newHealthCheck endpoint).circuit = CircuitState.CircuitClosed) ∧
    (∀ c, checks.lookup endpoint = some c → Register checks endpoint = checks) ∧
    Register (Register checks endpoint) endpoint = Register checks endpoint := by
  refine ⟨?_, ?_, ?_⟩
  · intro h
    unfold Register
    rw [h]
    exact ⟨rfl, rfl, rfl⟩
  · intro c h
    unfold Register
    rw [h]
  · cases hl : checks.lookup endpoint with
    | some c =>
      have hreg : Register checks endpoint = checks := by
        unfold Register
        rw [hl]
      rw [hreg]
      exact hreg
    | none =>
      have hreg : Register checks endpoint =
          checks ++ [(endpoint, newHealthCheck endpoint)] := by
        unfold Register
        rw [hl]
      have hfound : (checks ++ [(endpoint, newHealthCheck endpoint)]).lookup endpoint =
          some (newHealthCheck endpoint) := by
        rw [lookup_append_of_none checks _ endpoint hl]
        simp [List.lookup]
      rw [hreg]
      unfold Register
      rw [hfound]

/-- Witness for C9: registering `e` in an empty map creates the fresh
record; registering it again is a no-op. -/
theorem c9_register_idempotent_witness :
    (Register [] "e" = [("e", newHealthCheck "e")] ∧
      (newHealthCheck "e").status = HealthStatus.HealthStatusUnknown ∧
      (newHealthCheck "e").circuit = CircuitState.CircuitClosed) ∧
    Register [("e", newHealthCheck "e")] "e" = [("e", newHealthCheck "e")] := by
  constructor
  · have h := (c9_register_idempotent [] "e").1 rfl
    exact ⟨by rw [h.1]; rfl, h.2.1, h.2.2⟩
  · exact (c9_register_idempotent [("e", newHealthCheck "e")] "e").2.1
      (newHealthCheck "e") (by decide)

end Harbor
